import Mathlib

/-!
Verification of the WebDAV backup engine of one-api-hub.

The engine lives in the `WebDAVService` class (src/options/pages/WebDAVBackup.tsx
and its near-duplicate src/services/webdavService.ts).  JavaScript strings are
modelled as `List Char`; the asynchronous environment (chrome storage, the
background-script proxy channel, the remote WebDAV server, the system clock) is
modelled by explicit oracles passed to each operation, and the side effects an
operation performs (saving the configuration, appending a sync-log entry) are
returned as an explicit event list.
-/

namespace WebDAV

/-- JavaScript strings, modelled as lists of characters. -/
abbrev Str := List Char

/-- Coerce a Lean string literal into the model's string type. -/
def str (s : String) : Str := s.data

/-- The character `'/'`. -/
def sl : Char := '/'

/-- Models JS `s.startsWith(c)` for a single character. -/
def startsWithSl (s : Str) : Bool :=
  match s with
  | [] => false
  | c :: _ => c = sl

/-- Models JS `s.endsWith(c)` for a single character. -/
def endsWithSl (s : Str) : Bool :=
  match s.getLast? with
  | some c => c = sl
  | none => false

/--
`normalizePath` from WebDAVBackup.tsx lines 708-713 (identical in
webdavService.ts lines 46-51):
`url.replace(/\/$/, '')` strips one trailing slash, the path gets a leading
and a trailing slash if missing, and the two are concatenated.
-/
def normalizePath (url path : Str) : Str :=
  let baseUrl := if endsWithSl url then url.dropLast else url
  let normalizedPath := if startsWithSl path then path else sl :: path
  let finalPath :=
    if endsWithSl normalizedPath then normalizedPath else normalizedPath ++ [sl]
  baseUrl ++ finalPath

/-- A sync-log entry (`addSyncLog`'s `newLog` object, WebDAVBackup.tsx
lines 932-937). -/
structure SyncLogEntry where
  timestamp : Nat
  trigger : Str
  success : Bool
  message : Str
deriving DecidableEq

/--
`addSyncLog` from WebDAVBackup.tsx lines 927-949, restricted to its effect on
the stored log list: `logs.push(newLog)` followed by
`if (logs.length > 50) logs.splice(0, logs.length - 50)`.
-/
def addSyncLog (logs : List SyncLogEntry) (e : SyncLogEntry) : List SyncLogEntry :=
  let l := logs ++ [e]
  if 50 < l.length then l.drop (l.length - 50) else l

/-- An HTTP-level response as surfaced to the service (the mock `Response`
object built from the proxy reply, or a direct `fetch` response). -/
structure HttpResp where
  ok : Bool
  status : Nat
  statusText : Str
  text : Str
deriving DecidableEq

/-- Models JS `pat` being a prefix of a string. -/
def leadsWith : Str → Str → Bool
  | [], _ => true
  | _ :: _, [] => false
  | a :: as, b :: bs => a = b && leadsWith as bs

/-- Models JS `s.includes(pat)`: `pat` occurs as a contiguous substring. -/
def hasSub (pat : Str) : Str → Bool
  | [] => leadsWith pat []
  | c :: rest => leadsWith pat (c :: rest) || hasSub pat rest

/-- The connectivity-failure marker tested by the retry condition
(`error.message.includes('扩展后台脚本暂时不可用')`). -/
def retryMarker : Str := str "扩展后台脚本暂时不可用"

/-- The message the proxy path throws when `chrome.runtime.lastError`
reports a missing receiving end. -/
def bgUnavailableMsg : Str := str "扩展后台脚本暂时不可用，请稍后重试"

/-- What one attempt of the proxied send observes from the environment
(WebDAVBackup.tsx lines 739-796): the runtime id check, the 30-second
timeout, `chrome.runtime.lastError`, a missing or unsuccessful proxy reply,
or a delivered structured response. -/
inductive ProxyEvent where
  | runtimeInvalid
  | timeout
  | lastError (msg : Str)
  | noResponse
  | appFailure (msg : Str)
  | delivered (r : HttpResp)

/-- The result of one attempt's promise: the thrown error message, or the
mock `Response` built from the delivered proxy data (lines 739-796). -/
def attemptResult : ProxyEvent → Except Str HttpResp
  | .runtimeInvalid => .error (str "扩展运行时无效，可能正在重新加载")
  | .timeout => .error (str "请求超时")
  | .lastError m =>
    let em := if m = [] then str "扩展通信失败" else m
    if hasSub (str "Receiving end does not exist") em then .error bgUnavailableMsg
    else .error em
  | .noResponse => .error (str "未收到响应")
  | .appFailure m => .error (if m = [] then str "请求失败" else m)
  | .delivered r => .ok r

/-- The retry condition of the catch block (line 806). -/
def retryable (m : Str) : Bool := hasSub retryMarker m

/--
The retry loop of `sendWebDAVRequest` (WebDAVBackup.tsx lines 731-817) in
proxied mode, from attempt number `attempt` on: on a thrown error that is
retryable and not the last attempt, wait `attempt * 1000` ms and retry.
Returns the final outcome, the number of the attempt that produced it, and
the list of back-off delays (in ms) slept between attempts.
-/
def sendAttempts (ev : Nat → ProxyEvent) (attempt : Nat) :
    Except Str HttpResp × Nat × List Nat :=
  match attemptResult (ev attempt) with
  | .ok r => (.ok r, attempt, [])
  | .error m =>
    if h : attempt < 3 ∧ retryable m = true then
      let rest := sendAttempts ev (attempt + 1)
      (rest.1, rest.2.1, 1000 * attempt :: rest.2.2)
    else (.error m, attempt, [])
termination_by 3 - attempt
decreasing_by omega

/-- `sendWebDAVRequest` in proxied mode (`maxRetries = 3`, attempts start
at 1). -/
def sendWebDAVRequestProxied (ev : Nat → ProxyEvent) :
    Except Str HttpResp × Nat × List Nat :=
  sendAttempts ev 1

/-- The WebDAV connection configuration (`WebDAVConfig` in src/types). -/
structure WebDAVConfig where
  enabled : Bool
  server_url : Str
  username : Str
  password : Str
  backup_path : Str
  auto_sync_on_change : Bool
  last_backup_time : Nat
deriving DecidableEq

/-- What one WebDAV request observes: a thrown transport error (after the
retry loop is exhausted) or a delivered HTTP response. -/
inductive HttpOutcome where
  | thrown (msg : Str)
  | resp (r : HttpResp)
deriving DecidableEq

/-- The remote server plus transport, as seen by the directory-provisioning
code: the outcome of a `PROPFIND` probe and of a `MKCOL` creation request,
keyed by the request URL. -/
structure DavEnv where
  propfind : Str → HttpOutcome
  mkcol : Str → HttpOutcome

/-- `checkDirectoryExists` (WebDAVBackup.tsx lines 820-842): a depth-0
`PROPFIND` on the normalized URL; returns `response.ok`, and `false` when
the request throws. -/
def checkDirectoryExists (env : DavEnv) (config : WebDAVConfig)
    (dirPath : Str) : Bool :=
  match env.propfind (normalizePath config.server_url dirPath) with
  | .thrown _ => false
  | .resp r => r.ok

/-- `createDirectory` (WebDAVBackup.tsx lines 845-858): a `MKCOL` on the
normalized URL; returns `response.ok || response.status === 405`, and
`false` when the request throws. -/
def createDirectory (env : DavEnv) (config : WebDAVConfig)
    (dirPath : Str) : Bool :=
  match env.mkcol (normalizePath config.server_url dirPath) with
  | .thrown _ => false
  | .resp r => r.ok || r.status == 405

/-- Models JS `s.split('/')`. -/
def splitSlash : Str → List Str
  | [] => [[]]
  | c :: rest =>
    let ps := splitSlash rest
    if c = sl then [] :: ps
    else (c :: ps.headD []) :: ps.tail

/-- The `for (const part of pathParts)` loop of `ensureDirectoryExists`
(lines 869-876): accumulate the path, probe each accumulated path, create
it when absent, abort on the first failed creation. -/
def ensureDirLoop (env : DavEnv) (config : WebDAVConfig) (current : Str) :
    List Str → Bool
  | [] => true
  | part :: rest =>
    let cur := current ++ sl :: part
    if checkDirectoryExists env config cur then ensureDirLoop env config cur rest
    else if createDirectory env config cur then ensureDirLoop env config cur rest
    else false

/-- `ensureDirectoryExists` (WebDAVBackup.tsx lines 861-879). -/
def ensureDirectoryExists (env : DavEnv) (config : WebDAVConfig)
    (dirPath : Str) : Bool :=
  if checkDirectoryExists env config dirPath then true
  else
    ensureDirLoop env config []
      ((splitSlash dirPath).filter (fun part => 0 < part.length))

/-- The accumulated paths the provisioning loop visits, in order. -/
def ancestorPaths (current : Str) : List Str → List Str
  | [] => []
  | part :: rest =>
    (current ++ sl :: part) :: ancestorPaths (current ++ sl :: part) rest

/-- Environment for the C7 counterexample: every probe answers 404 and
every creation request answers 409 Conflict. -/
def envConflict : DavEnv where
  propfind := fun _ => .resp ⟨false, 404, str "Not Found", []⟩
  mkcol := fun _ => .resp ⟨false, 409, str "Conflict", []⟩

/-- A concrete enabled configuration used by counterexamples and witnesses. -/
def cfgDemo : WebDAVConfig where
  enabled := true
  server_url := str "https://dav.example.com"
  username := str "u"
  password := str "p"
  backup_path := str "/bk"
  auto_sync_on_change := true
  last_backup_time := 0

/-- The decimal digit character for `n < 10`. -/
def digitChar (n : Nat) : Char := Char.ofNat (48 + n)

/-- Fuel-driven decimal rendering (the fuel makes the recursion structural;
`natToChars` always supplies enough). -/
def natToCharsAux (fuel : Nat) (n : Nat) : Str :=
  match fuel with
  | 0 => []
  | fuel + 1 =>
    if n < 10 then [digitChar n]
    else natToCharsAux fuel (n / 10) ++ [digitChar (n % 10)]

/-- Models JS `String(n)` for a natural number: decimal, no padding. -/
def natToChars (n : Nat) : Str := natToCharsAux (n + 1) n

/-- Models JS `s.padStart(2, '0')`. -/
def padTwo (s : Str) : Str :=
  if s.length < 2 then List.replicate (2 - s.length) '0' ++ s else s

/-- `String(n).padStart(2, '0')`, as used for the filename fields. -/
def pad2 (n : Nat) : Str := padTwo (natToChars n)

/-- The local calendar decomposition of an instant, as produced by JS
`new Date(ms)`: `getFullYear()`, `getMonth() + 1`, `getDate()`,
`getHours()`, `getMinutes()`, `getSeconds()`. -/
structure DateTime where
  year : Nat
  month : Nat
  day : Nat
  hour : Nat
  minute : Nat
  second : Nat
deriving DecidableEq

/-- Gregorian leap-year rule (as implemented by the JS `Date` calendar). -/
def isLeapYear (y : Nat) : Bool :=
  (y % 4 == 0 && y % 100 != 0) || y % 400 == 0

/-- Days in a (1-based) month of the Gregorian calendar. -/
def daysInMonth (y m : Nat) : Nat :=
  if m = 2 then (if isLeapYear y then 29 else 28)
  else if m = 4 ∨ m = 6 ∨ m = 9 ∨ m = 11 then 30
  else 31

/-- The calendar fields are a well-formed date-time (with a four-digit
year, so that the unpadded year field has fixed width). -/
def ValidDT (d : DateTime) : Prop :=
  1000 ≤ d.year ∧ d.year ≤ 9999 ∧ 1 ≤ d.month ∧ d.month ≤ 12 ∧
  1 ≤ d.day ∧ d.day ≤ daysInMonth d.year d.month ∧
  d.hour ≤ 23 ∧ d.minute ≤ 59 ∧ d.second ≤ 59

instance (d : DateTime) : Decidable (ValidDT d) := by
  unfold ValidDT
  infer_instance

/-- The calendar decomposition of the instant one second later (no leap
seconds, fixed UTC offset: the rollover of the wall clock). -/
def nextSecond (d : DateTime) : DateTime :=
  if d.second < 59 then {d with second := d.second + 1}
  else if d.minute < 59 then {d with second := 0, minute := d.minute + 1}
  else if d.hour < 23 then {d with second := 0, minute := 0, hour := d.hour + 1}
  else if d.day < daysInMonth d.year d.month then
    {d with second := 0, minute := 0, hour := 0, day := d.day + 1}
  else if d.month < 12 then
    {d with second := 0, minute := 0, hour := 0, day := 1, month := d.month + 1}
  else ⟨d.year + 1, 1, 1, 0, 0, 0⟩

/-- Chronological (field-lexicographic) order of calendar decompositions. -/
def dtLt (x y : DateTime) : Prop :=
  x.year < y.year ∨ (x.year = y.year ∧
    (x.month < y.month ∨ (x.month = y.month ∧
      (x.day < y.day ∨ (x.day = y.day ∧
        (x.hour < y.hour ∨ (x.hour = y.hour ∧
          (x.minute < y.minute ∨ (x.minute = y.minute ∧
            x.second < y.second)))))))))

/-- The snapshot filename built by `uploadBackup` (WebDAVBackup.tsx lines
987-994): `backup-${year}-${month}-${day}_${hour}-${minute}-${second}.json`
with the two-digit fields zero-padded. -/
def backupFilename (d : DateTime) : Str :=
  str "backup-" ++ natToChars d.year ++ str "-" ++ pad2 d.month ++ str "-" ++
  pad2 d.day ++ str "_" ++ pad2 d.hour ++ str "-" ++ pad2 d.minute ++
  str "-" ++ pad2 d.second ++ str ".json"

/-- The uniform result object of the engine's public operations. -/
structure WebDAVResult where
  success : Bool
  message : Str
deriving DecidableEq

/-- Side effects `uploadBackup` can perform: invoking `saveConfig` with a
new configuration, and appending a sync-log entry via `addSyncLog`. -/
inductive UpEv where
  | savedConfig (c : WebDAVConfig)
  | syncLog (trigger : Str) (success : Bool) (message : Str)
deriving DecidableEq

/-- The environment one `uploadBackup` call runs against: the directory
oracles, the outcome of the concurrent data exports, the outcome of the
`PUT` request, the two `Date.now()` readings (line 980 and line 986), and
the `new Date(ms)` calendar decomposition. -/
structure UploadEnv where
  dav : DavEnv
  exportOutcome : Except Str Unit
  putOutcome : Except Str HttpResp
  dataTimestamp : Nat
  backupTimestamp : Nat
  dateOf : Nat → DateTime

/-- The status-code classification of a failed `PUT` (WebDAVBackup.tsx
lines 1019-1050). -/
def classifyUploadError (r : HttpResp) : Str :=
  str "上传失败: " ++ natToChars r.status ++
  (if r.status = 401 then str " - 认证失败，请检查用户名和密码"
   else if r.status = 403 then str " - 权限不足，请检查账号权限"
   else if r.status = 404 then str " - 路径不存在，请检查服务器地址和备份路径"
   else if r.status = 423 then
     str " - 资源被锁定，文件可能正在被使用或服务器繁忙，请稍后重试"
   else if r.status = 507 then str " - 存储空间不足"
   else if r.status = 500 then str " - 服务器内部错误"
   else if r.status = 502 then str " - 网关错误，服务器暂时不可用"
   else if r.status = 503 then str " - 服务不可用，服务器暂时过载"
   else if r.statusText = [] then [] else str " - " ++ r.statusText)

/--
`uploadBackup` (WebDAVBackup.tsx lines 952-1071) over the explicit
environment: the returned result together with the list of side effects
performed (`saveConfig`, `addSyncLog`).  The cached configuration is the
`config` argument; exceptions of the data exports and of the `PUT` are the
`.error` cases of the respective outcomes and land in the catch block.
-/
def uploadBackup (w : UploadEnv) (config : WebDAVConfig) (trigger : Str) :
    WebDAVResult × List UpEv :=
  if !config.enabled then
    ({success := false, message := str "WebDAV 备份未启用"}, [])
  else if !(ensureDirectoryExists w.dav config config.backup_path) then
    ({success := false, message := str "无法创建备份目录"}, [])
  else
    match w.exportOutcome with
    | .error m =>
      let em := str "上传错误: " ++ m
      ({success := false, message := em}, [.syncLog trigger false em])
    | .ok _ =>
      let filename := backupFilename (w.dateOf w.backupTimestamp)
      match w.putOutcome with
      | .error m =>
        let em := str "上传错误: " ++ m
        ({success := false, message := em}, [.syncLog trigger false em])
      | .ok r =>
        if r.ok then
          let newConfig := {config with last_backup_time := w.backupTimestamp}
          let msg := str "备份上传成功: " ++ filename
          ({success := true, message := msg},
           [.savedConfig newConfig, .syncLog trigger true msg])
        else
          let em := classifyUploadError r
          ({success := false, message := em}, [.syncLog trigger false em])

/-- The number of sync-log entries among the recorded events. -/
def logCount (evs : List UpEv) : Nat :=
  (evs.filter (fun e => match e with | .syncLog _ _ _ => true | _ => false)).length

/-- Side effects `syncOnDataChange` can perform at its own level:
delegating to `uploadBackup`, and appending a sync-log entry itself. -/
inductive SyncEv where
  | uploadAttempt
  | logAdd (success : Bool) (message : Str)
deriving DecidableEq

/-- The environment one `syncOnDataChange` call runs against: `getConfig`
may throw (storage failure), and the delegated `uploadBackup` call either
returns a result or throws. -/
structure SyncEnv where
  getConfig : Except Str WebDAVConfig
  uploadResult : Except Str WebDAVResult

/-- `error.message || '未知错误'`. -/
def errMsg (m : Str) : Str := if m = [] then str "未知错误" else m

/--
`syncOnDataChange` (WebDAVBackup.tsx lines 1286-1323): a no-op unless both
`enabled` and `auto_sync_on_change` are set; the inner try/catch turns an
upload exception into a failure log entry, the outer try/catch turns a
configuration-check exception into a failure log entry.  The `.error`
result would mean an uncaught exception propagating to the caller.
-/
def syncOnDataChange (w : SyncEnv) : Except Str (List SyncEv) :=
  match w.getConfig with
  | .error e =>
    .ok [.logAdd false (str "同步检查失败: " ++ errMsg e)]
  | .ok config =>
    if !(config.enabled && config.auto_sync_on_change) then .ok []
    else
      match w.uploadResult with
      | .ok _ => .ok [.uploadAttempt]
      | .error e =>
        .ok [.uploadAttempt, .logAdd false (str "同步异常: " ++ errMsg e)]

/-- Models JS `a.startsWith`/`endsWith(suffix)` via reversal. -/
def endsWithStr (suf s : Str) : Bool := leadsWith suf.reverse s.reverse

/-- Strict lexicographic comparison of JS strings (`a < b` on strings,
code-unit order). -/
def strLtB : Str → Str → Bool
  | [], [] => false
  | [], _ :: _ => true
  | _ :: _, [] => false
  | a :: as, b :: bs =>
    if a < b then true else if b < a then false else strLtB as bs

/-- The ordering JS `Array.prototype.sort()` (default comparator) sorts
strings by. -/
def strLeB (a b : Str) : Bool := !(strLtB b a)

/-- The post-processing of a successful listing in `getBackupList`
(WebDAVBackup.tsx line 1153):
`files.filter(f => f.endsWith('.json')).sort().reverse()`. -/
def getBackupListFiles (files : List Str) : List Str :=
  ((files.filter (fun f => endsWithStr (str ".json") f)).insertionSort
    (fun a b => strLeB a b = true)).reverse

/-- Environment where every probe and creation succeeds. -/
def envAllOk : DavEnv where
  propfind := fun _ => .resp ⟨true, 207, str "Multi-Status", []⟩
  mkcol := fun _ => .resp ⟨true, 201, str "Created", []⟩

/-- A concrete calendar instant for witnesses. -/
def dtDemo : DateTime := ⟨2025, 12, 31, 23, 59, 59⟩

/-- A concrete upload environment in which everything succeeds. -/
def envUploadSuccess : UploadEnv where
  dav := envAllOk
  exportOutcome := .ok ()
  putOutcome := .ok ⟨true, 201, str "Created", []⟩
  dataTimestamp := 1111
  backupTimestamp := 2222
  dateOf := fun _ => dtDemo

/-- A concrete upload environment whose `PUT` is answered with HTTP 423. -/
def envUpload423 : UploadEnv :=
  {envUploadSuccess with putOutcome := .ok ⟨false, 423, str "Locked", []⟩}

mutual
/-- The XML tree the browser's `DOMParser` hands to
`parseWebDAVResponse`: elements carry their qualified tag name (prefix
included, as `getElementsByTagName` matches qualified names in XML
documents) and text nodes carry their text. -/
inductive Xml : Type where
  | elem : Str → XmlForest → Xml
  | txt : Str → Xml

/-- A list of sibling XML nodes. -/
inductive XmlForest : Type where
  | nil : XmlForest
  | cons : Xml → XmlForest → XmlForest
end

/-- Build a forest from a list of children. -/
def xf : List Xml → XmlForest
  | [] => .nil
  | x :: xs => .cons x (xf xs)

/-- Element node from a tag literal and children. -/
def el (t : String) (cs : List Xml) : Xml := .elem (str t) (xf cs)

/-- Text node from a literal. -/
def tx (s : String) : Xml := .txt (str s)

mutual
/-- A node and its element descendants, in document order. -/
def selfElems : Xml → List Xml
  | .elem t cs => .elem t cs :: forestElems cs
  | .txt _ => []

/-- The elements of a forest and their descendants, in document order. -/
def forestElems : XmlForest → List Xml
  | .nil => []
  | .cons x xs => selfElems x ++ forestElems xs
end

/-- The element descendants of a node, excluding the node itself. -/
def descElems : Xml → List Xml
  | .elem _ cs => forestElems cs
  | .txt _ => []

/-- The qualified tag name of a node (text nodes have none). -/
def tagOf : Xml → Str
  | .elem t _ => t
  | .txt _ => []

/-- `element.getElementsByTagName(tag)`: descendant elements with the given
qualified tag name, in document order. -/
def getByTag (x : Xml) (tag : Str) : List Xml :=
  (descElems x).filter (fun e => tagOf e = tag)

/-- `document.getElementsByTagName(tag)`: like `getByTag` but the document
root itself is also eligible. -/
def docGetByTag (doc : Xml) (tag : Str) : List Xml :=
  (selfElems doc).filter (fun e => tagOf e = tag)

mutual
/-- `node.textContent`: the concatenated text descendants. -/
def textOf : Xml → Str
  | .elem _ cs => textForest cs
  | .txt s => s

/-- The concatenated text of a forest. -/
def textForest : XmlForest → Str
  | .nil => []
  | .cons x xs => textOf x ++ textForest xs
end

/-- JS whitespace for `trim` (the characters relevant here). -/
def isJsWs (c : Char) : Bool :=
  c = ' ' ∨ c = '\t' ∨ c = '\n' ∨ c = '\r'

/-- Models JS `s.trim()`. -/
def jsTrim (s : Str) : Str :=
  ((s.dropWhile isJsWs).reverse.dropWhile isJsWs).reverse

/-- The numeric value of a hexadecimal digit. -/
def hexVal (c : Char) : Option Nat :=
  if '0' ≤ c ∧ c ≤ '9' then some (c.toNat - 48)
  else if 'A' ≤ c ∧ c ≤ 'F' then some (c.toNat - 55)
  else if 'a' ≤ c ∧ c ≤ 'f' then some (c.toNat - 87)
  else none

/-- Models JS `decodeURIComponent` on the single-byte (ASCII) sequences
that occur in the listings considered here; multi-byte UTF-8 recombination
and the exception on malformed sequences are outside the modelled scope. -/
def percentDecode : Str → Str
  | [] => []
  | '%' :: h1 :: h2 :: rest =>
    match hexVal h1, hexVal h2 with
    | some a, some b => Char.ofNat (16 * a + b) :: percentDecode rest
    | _, _ => '%' :: percentDecode (h1 :: h2 :: rest)
  | c :: rest => c :: percentDecode rest

/-- The tag-name variants tried for the entry elements (line 1179). -/
def respTags : List Str := [str "response", str "d:response", str "D:response"]

/-- The tag-name variants tried for the display name (line 1181). -/
def dispTags : List Str :=
  [str "displayname", str "d:displayname", str "D:displayname"]

/-- The tag-name variants tried for the reference field (line 1180). -/
def hrefTags : List Str := [str "href", str "d:href", str "D:href"]

/-- The lookup loops of lines 1201-1218: the first tag variant whose first
matching element has non-empty (`truthy`) text content, yielding that text. -/
def firstTextByTags (resp : Xml) : List Str → Option Str
  | [] => none
  | t :: ts =>
    match (getByTag resp t).head? with
    | some e => if textOf e ≠ [] then some (textOf e) else firstTextByTags resp ts
    | none => firstTextByTags resp ts

/-- The href fallback (lines 1210-1219): trim the reference, take its last
`/`-separated segment (or the empty string), percent-decode it. -/
def hrefName (resp : Xml) : Str :=
  match firstTextByTags resp hrefTags with
  | some s => percentDecode ((splitSlash (jsTrim s)).getLastD [])
  | none => []

/-- The derived name of one entry (lines 1198-1219): the trimmed display
name when present and non-empty, else the href-derived name. -/
def entryName (resp : Xml) : Str :=
  match firstTextByTags resp dispTags with
  | some s => if jsTrim s = [] then hrefName resp else jsTrim s
  | none => hrefName resp

/-- The collection check of lines 1224-1231: only the unprefixed
`resourcetype`/`collection` tag names are consulted. -/
def isDirEntry (resp : Xml) : Bool :=
  match (getByTag resp (str "resourcetype")).head? with
  | none => false
  | some rt => !(getByTag rt (str "collection")).isEmpty

/-- The entry-element lookup of lines 1186-1189: the first tag variant with
any matches wins; an entirely unmatched document yields no entries. -/
def findResponses (doc : Xml) : List Xml :=
  let r1 := docGetByTag doc (str "response")
  if 0 < r1.length then r1
  else
    let r2 := docGetByTag doc (str "d:response")
    if 0 < r2.length then r2
    else docGetByTag doc (str "D:response")

/-- `parseWebDAVResponse` (WebDAVBackup.tsx lines 1172-1245) on the parsed
document: keep each entry's derived name when it is non-empty, does not end
in `/`, and the entry is not marked as a directory. -/
def parseWebDAVResponse (doc : Xml) : List Str :=
  (findResponses doc).filterMap (fun resp =>
    if entryName resp ≠ [] ∧ endsWithSl (entryName resp) ≠ true ∧
        isDirEntry resp ≠ true
    then some (entryName resp) else none)

/-- Unprefixed listing: one collection entry (with display name and a
`resourcetype`/`collection` marker) and one object entry. -/
def docUnprefixed : Xml :=
  el "multistatus" [
    el "response" [
      el "href" [tx "/bk/"],
      el "propstat" [el "prop" [
        el "displayname" [tx "bk"],
        el "resourcetype" [el "collection" []]]]],
    el "response" [
      el "href" [tx "/bk/backup-1.json"],
      el "propstat" [el "prop" [
        el "displayname" [tx "backup-1.json"],
        el "resourcetype" []]]]]

/-- Lowercase-prefixed listing: the collection entry has no display name
and its href ends in `/`. -/
def docLowerPrefixed : Xml :=
  el "d:multistatus" [
    el "d:response" [
      el "d:href" [tx "/bk/"],
      el "d:propstat" [el "d:prop" [
        el "d:resourcetype" [el "d:collection" []]]]],
    el "d:response" [
      el "d:href" [tx "/bk/backup-1.json"],
      el "d:propstat" [el "d:prop" [
        el "d:displayname" [tx "backup-1.json"],
        el "d:resourcetype" []]]]]

/-- Uppercase-prefixed listing, same shape as `docLowerPrefixed`. -/
def docUpperPrefixed : Xml :=
  el "D:multistatus" [
    el "D:response" [
      el "D:href" [tx "/bk/"],
      el "D:propstat" [el "D:prop" [
        el "D:resourcetype" [el "D:collection" []]]]],
    el "D:response" [
      el "D:href" [tx "/bk/backup-1.json"],
      el "D:propstat" [el "D:prop" [
        el "D:displayname" [tx "backup-1.json"],
        el "D:resourcetype" []]]]]

/-- Lowercase-prefixed listing whose collection entry carries a display
name (as real servers emit): used as the C4 counterexample. -/
def docPrefixedColl : Xml :=
  el "d:multistatus" [
    el "d:response" [
      el "d:href" [tx "/bk/folder/"],
      el "d:propstat" [el "d:prop" [
        el "d:displayname" [tx "folder"],
        el "d:resourcetype" [el "d:collection" []]]]],
    el "d:response" [
      el "d:href" [tx "/bk/a.json"],
      el "d:propstat" [el "d:prop" [
        el "d:displayname" [tx "a.json"],
        el "d:resourcetype" []]]]]

theorem endsWithSl_concat (u : Str) : endsWithSl (u ++ [sl]) = true := by
  simp [endsWithSl]

theorem endsWithSl_of_getLast? (u : Str) (h : u.getLast? ≠ some sl) :
    endsWithSl u = false := by
  unfold endsWithSl
  cases hg : u.getLast? with
  | none => rfl
  | some c =>
    have hc : c ≠ sl := fun hc => h (hc ▸ hg)
    simp [hc]

theorem normalizePath_eq (u p : Str) (hu : u.getLast? ≠ some sl) (hp : p ≠ [])
    (hps : p.head? ≠ some sl) (hpe : p.getLast? ≠ some sl) :
    ∀ su ∈ [u, u ++ [sl]], ∀ sp ∈ [p, sl :: p, p ++ [sl], sl :: p ++ [sl]],
      normalizePath su sp = u ++ sl :: p ++ [sl] := by
  obtain ⟨c, cs, rfl⟩ : ∃ c cs, p = c :: cs := by
    cases p with
    | nil => exact absurd rfl hp
    | cons c cs => exact ⟨c, cs, rfl⟩
  have hcne : c ≠ sl := by
    intro hc
    exact hps (by simp [hc])
  have hstart : startsWithSl (c :: cs) = false := by simp [startsWithSl, hcne]
  have hstart3 : startsWithSl (c :: (cs ++ [sl])) = false := by
    simp [startsWithSl, hcne]
  have hstartSl2 : startsWithSl (sl :: c :: cs) = true := by simp [startsWithSl]
  have hstart4 : startsWithSl (sl :: c :: (cs ++ [sl])) = true := by
    simp [startsWithSl]
  have hpend : endsWithSl (c :: cs) = false := endsWithSl_of_getLast? _ hpe
  have hslp : endsWithSl (sl :: c :: cs) = false := by
    unfold endsWithSl at hpend ⊢
    rwa [List.getLast?_cons_cons]
  have hends1 : endsWithSl (sl :: c :: (cs ++ [sl])) = true := by
    rw [show sl :: c :: (cs ++ [sl]) = (sl :: c :: cs) ++ [sl] by simp]
    exact endsWithSl_concat _
  have huend : endsWithSl u = false := endsWithSl_of_getLast? u hu
  have hbase : ∀ su ∈ [u, u ++ [sl]],
      (if endsWithSl su then su.dropLast else su) = u := by
    intro su hsu
    simp only [List.mem_cons, List.not_mem_nil, or_false] at hsu
    rcases hsu with rfl | rfl
    · rw [huend]; simp
    · rw [endsWithSl_concat]; simp
  intro su hsu sp hsp
  simp only [List.mem_cons, List.not_mem_nil, or_false] at hsp
  have hb := hbase su hsu
  rcases hsp with rfl | rfl | rfl | rfl
  · simp [normalizePath, hstart, hslp, hb]
  · simp [normalizePath, hstartSl2, hslp, hb]
  · simp [normalizePath, hstart3, hends1, hb]
  · simp [normalizePath, hstart4, hends1, hb]

/-- C6: for every serverUrl with or without a trailing slash and every path
with or without leading/trailing slash, `normalizePath` returns the two
concatenated with exactly one `/` between host and path and exactly one
trailing `/`. -/
theorem C6_normalizePath (u p : Str) (hu : u.getLast? ≠ some sl) (hp : p ≠ [])
    (hps : p.head? ≠ some sl) (hpe : p.getLast? ≠ some sl) :
    ∀ su ∈ [u, u ++ [sl]], ∀ sp ∈ [p, sl :: p, p ++ [sl], sl :: p ++ [sl]],
      normalizePath su sp = u ++ sl :: p ++ [sl] :=
  normalizePath_eq u p hu hp hps hpe

theorem C6_witness :
    normalizePath (str "https://dav.example.com/") (str "bk") =
      str "https://dav.example.com" ++ sl :: str "bk" ++ [sl] :=
  C6_normalizePath (str "https://dav.example.com") (str "bk")
    (by decide) (by decide) (by decide) (by decide)
    (str "https://dav.example.com/") (by decide)
    (str "bk") (by decide)

/-- C5: the sync audit log never exceeds 50 entries; `addSyncLog` appends and
evicts oldest-first on overflow, so appending to a 50-entry log leaves exactly
50 entries with the former second entry now first. -/
theorem C5_log_cap (logs : List SyncLogEntry) (e : SyncLogEntry) :
    (addSyncLog logs e).length = min (logs.length + 1) 50 ∧
    (logs.length < 50 → addSyncLog logs e = logs ++ [e]) ∧
    (logs.length = 50 →
      addSyncLog logs e = logs.tail ++ [e] ∧
      (addSyncLog logs e).length = 50 ∧
      (addSyncLog logs e).head? = logs[1]?) := by
  refine ⟨?_, ?_, ?_⟩
  · unfold addSyncLog
    by_cases h : 50 < logs.length + 1
    · simp only [List.length_append, List.length_cons, List.length_nil]
      rw [if_pos (by omega)]
      simp only [List.length_drop, List.length_append, List.length_cons,
        List.length_nil]
      omega
    · simp only [List.length_append, List.length_cons, List.length_nil]
      rw [if_neg (by omega)]
      simp only [List.length_append, List.length_cons, List.length_nil]
      omega
  · intro h
    unfold addSyncLog
    simp only [List.length_append, List.length_cons, List.length_nil]
    rw [if_neg (by omega)]
  · intro h
    have hdrop : addSyncLog logs e = (logs ++ [e]).drop 1 := by
      unfold addSyncLog
      simp only [List.length_append, List.length_cons, List.length_nil, h]
      rw [if_pos (by omega)]
    have htail : addSyncLog logs e = logs.tail ++ [e] := by
      rw [hdrop]
      cases logs with
      | nil => simp at h
      | cons a as => simp
    refine ⟨htail, ?_, ?_⟩
    · rw [htail]
      simp [List.length_tail, h]
    · rw [htail]
      cases logs with
      | nil => simp at h
      | cons a as =>
        cases as with
        | nil => simp at h
        | cons b bs => simp

theorem C5_witness :
    (addSyncLog (List.replicate 49 ⟨0, str "t", true, str "old"⟩ ++
        [⟨1, str "t", true, str "second"⟩]) ⟨2, str "t", true, str "new"⟩).length
        = 50 ∧
    (addSyncLog (List.replicate 49 ⟨0, str "t", true, str "old"⟩ ++
        [⟨1, str "t", true, str "second"⟩]) ⟨2, str "t", true, str "new"⟩).head?
        = (List.replicate 49 (⟨0, str "t", true, str "old"⟩ : SyncLogEntry) ++
        [⟨1, str "t", true, str "second"⟩])[1]? := by
  have h := (C5_log_cap (List.replicate 49 ⟨0, str "t", true, str "old"⟩ ++
    [⟨1, str "t", true, str "second"⟩]) ⟨2, str "t", true, str "new"⟩).2.2
    (by simp)
  exact ⟨h.2.1, h.2.2⟩

theorem sendAttempts_spec (ev : Nat → ProxyEvent) :
    ∀ fuel a, a + fuel = 3 → 1 ≤ a →
      a ≤ (sendAttempts ev a).2.1 ∧ (sendAttempts ev a).2.1 ≤ 3 ∧
      (∀ i, a ≤ i → i < (sendAttempts ev a).2.1 →
        ∃ m, attemptResult (ev i) = .error m ∧ retryable m = true) ∧
      (sendAttempts ev a).2.2 =
        (List.range' a ((sendAttempts ev a).2.1 - a)).map (fun i => 1000 * i) ∧
      (sendAttempts ev a).1 = attemptResult (ev (sendAttempts ev a).2.1) := by
  intro fuel
  induction fuel with
  | zero =>
    intro a ha h1
    cases hr : attemptResult (ev a) with
    | ok r =>
      have hout : sendAttempts ev a = (.ok r, a, []) := by
        rw [sendAttempts, hr]
      rw [hout]
      exact ⟨le_refl a, (by omega : a ≤ 3),
        fun i hi hi2 => absurd (lt_of_lt_of_le hi2 hi) (lt_irrefl i),
        by simp, by rw [hr]⟩
    | error m =>
      have hc : ¬ (a < 3 ∧ retryable m = true) := fun hc => by omega
      have hout : sendAttempts ev a = (.error m, a, []) := by
        rw [sendAttempts, hr]
        exact dif_neg hc
      rw [hout]
      exact ⟨le_refl a, (by omega : a ≤ 3),
        fun i hi hi2 => absurd (lt_of_lt_of_le hi2 hi) (lt_irrefl i),
        by simp, by rw [hr]⟩
  | succ k ih =>
    intro a ha h1
    cases hr : attemptResult (ev a) with
    | ok r =>
      have hout : sendAttempts ev a = (.ok r, a, []) := by
        rw [sendAttempts, hr]
      rw [hout]
      exact ⟨le_refl a, (by omega : a ≤ 3),
        fun i hi hi2 => absurd (lt_of_lt_of_le hi2 hi) (lt_irrefl i),
        by simp, by rw [hr]⟩
    | error m =>
      by_cases hc : a < 3 ∧ retryable m = true
      · have hout : sendAttempts ev a = ((sendAttempts ev (a + 1)).1,
            (sendAttempts ev (a + 1)).2.1,
            1000 * a :: (sendAttempts ev (a + 1)).2.2) := by
          rw [sendAttempts, hr]
          exact dif_pos hc
        rw [hout]
        obtain ⟨ih1, ih2, ih3, ih4, ih5⟩ := ih (a + 1) (by omega) (by omega)
        refine ⟨?_, ih2, ?_, ?_, ih5⟩
        · show a ≤ (sendAttempts ev (a + 1)).2.1
          omega
        · intro i hi hi2
          have hi2' : i < (sendAttempts ev (a + 1)).2.1 := hi2
          rcases eq_or_lt_of_le hi with rfl | hlt
          · exact ⟨m, hr, hc.2⟩
          · exact ih3 i (by omega) hi2'
        · show 1000 * a :: (sendAttempts ev (a + 1)).2.2 =
            (List.range' a ((sendAttempts ev (a + 1)).2.1 - a)).map
              (fun i => 1000 * i)
          have hn : (sendAttempts ev (a + 1)).2.1 - a =
              ((sendAttempts ev (a + 1)).2.1 - (a + 1)) + 1 := by omega
          rw [ih4, hn, List.range'_succ]
          simp
      · have hout : sendAttempts ev a = (.error m, a, []) := by
          rw [sendAttempts, hr]
          exact dif_neg hc
        rw [hout]
        exact ⟨le_refl a, (by omega : a ≤ 3),
          fun i hi hi2 => absurd (lt_of_lt_of_le hi2 hi) (lt_irrefl i),
          by simp, by rw [hr]⟩

/-- C2: in proxied mode, `sendWebDAVRequest` makes between 1 and 3 attempts,
retries only after attempts whose failure is the proxy-channel connectivity
error (never after a delivered HTTP response, even a 4xx or 5xx one), sleeps
`attempt * 1000` ms between attempts, and surfaces the outcome (in
particular the error) of the last attempt made. -/
theorem C2_retry_policy (ev : Nat → ProxyEvent) :
    1 ≤ (sendWebDAVRequestProxied ev).2.1 ∧
    (sendWebDAVRequestProxied ev).2.1 ≤ 3 ∧
    (∀ i, 1 ≤ i → i < (sendWebDAVRequestProxied ev).2.1 →
      ∃ m, attemptResult (ev i) = .error m ∧ retryable m = true) ∧
    (∀ i r, 1 ≤ i → i < (sendWebDAVRequestProxied ev).2.1 →
      ev i ≠ ProxyEvent.delivered r) ∧
    (sendWebDAVRequestProxied ev).2.2 =
      (List.range' 1 ((sendWebDAVRequestProxied ev).2.1 - 1)).map
        (fun i => 1000 * i) ∧
    (sendWebDAVRequestProxied ev).1 =
      attemptResult (ev (sendWebDAVRequestProxied ev).2.1) := by
  obtain ⟨h1, h2, h3, h4, h5⟩ := sendAttempts_spec ev 2 1 (by omega) (by omega)
  refine ⟨h1, h2, h3, ?_, h4, h5⟩
  intro i r hi hi2 hev
  obtain ⟨m, hm, _⟩ := h3 i hi hi2
  rw [hev] at hm
  simp [attemptResult] at hm

theorem C2_witness :
    1 ≤ (sendWebDAVRequestProxied (fun _ => ProxyEvent.lastError
      (str "Could not establish connection. Receiving end does not exist."))).2.1 ∧
    (sendWebDAVRequestProxied (fun _ => ProxyEvent.lastError
      (str "Could not establish connection. Receiving end does not exist."))).2.1 ≤ 3 ∧
    (∀ i, 1 ≤ i → i < (sendWebDAVRequestProxied (fun _ => ProxyEvent.lastError
      (str "Could not establish connection. Receiving end does not exist."))).2.1 →
      ∃ m, attemptResult ((fun _ => ProxyEvent.lastError
        (str "Could not establish connection. Receiving end does not exist.")) i)
          = .error m ∧ retryable m = true) ∧
    (∀ i r, 1 ≤ i → i < (sendWebDAVRequestProxied (fun _ => ProxyEvent.lastError
      (str "Could not establish connection. Receiving end does not exist."))).2.1 →
      (fun _ => ProxyEvent.lastError
        (str "Could not establish connection. Receiving end does not exist.")) i
          ≠ ProxyEvent.delivered r) ∧
    (sendWebDAVRequestProxied (fun _ => ProxyEvent.lastError
      (str "Could not establish connection. Receiving end does not exist."))).2.2 =
      (List.range' 1 ((sendWebDAVRequestProxied (fun _ => ProxyEvent.lastError
        (str "Could not establish connection. Receiving end does not exist."))).2.1
          - 1)).map (fun i => 1000 * i) ∧
    (sendWebDAVRequestProxied (fun _ => ProxyEvent.lastError
      (str "Could not establish connection. Receiving end does not exist."))).1 =
      attemptResult ((fun _ => ProxyEvent.lastError
        (str "Could not establish connection. Receiving end does not exist."))
        ((sendWebDAVRequestProxied (fun _ => ProxyEvent.lastError
          (str "Could not establish connection. Receiving end does not exist."))).2.1)) :=
  C2_retry_policy (fun _ => ProxyEvent.lastError
    (str "Could not establish connection. Receiving end does not exist."))

theorem ensureDirLoop_iff (env : DavEnv) (config : WebDAVConfig) :
    ∀ (parts : List Str) (current : Str),
      ensureDirLoop env config current parts = true ↔
        ∀ q ∈ ancestorPaths current parts,
          checkDirectoryExists env config q = true ∨
          createDirectory env config q = true := by
  intro parts
  induction parts with
  | nil =>
    intro current
    simp [ensureDirLoop, ancestorPaths]
  | cons part rest ih =>
    intro current
    simp only [ensureDirLoop, ancestorPaths, List.mem_cons]
    by_cases h1 : checkDirectoryExists env config (current ++ sl :: part) = true
    · rw [if_pos h1]
      constructor
      · intro hl q hq
        rcases hq with rfl | hq
        · exact Or.inl h1
        · exact (ih _).1 hl q hq
      · intro hq
        exact (ih _).2 (fun q hqq => hq q (Or.inr hqq))
    · rw [if_neg h1]
      by_cases h2 : createDirectory env config (current ++ sl :: part) = true
      · rw [if_pos h2]
        constructor
        · intro hl q hq
          rcases hq with rfl | hq
          · exact Or.inr h2
          · exact (ih _).1 hl q hq
        · intro hq
          exact (ih _).2 (fun q hqq => hq q (Or.inr hqq))
      · rw [if_neg h2]
        constructor
        · intro hl
          exact (Bool.false_ne_true hl).elim
        · intro hq
          rcases hq _ (Or.inl rfl) with hc | hc
          · exact absurd hc h1
          · exact absurd hc h2

/-- C7 counterexample: the claim says a creation response with conflict
semantics (HTTP 409) counts as success, so provisioning `/bk` against a
server that answers every probe with 404 and every creation with 409 ought
to succeed; the code treats only 405 as already-exists and returns failure. -/
theorem C7_counterexample :
    envConflict.mkcol (normalizePath cfgDemo.server_url (str "/bk")) =
      HttpOutcome.resp ⟨false, 409, str "Conflict", []⟩ ∧
    createDirectory envConflict cfgDemo (str "/bk") = false ∧
    ensureDirectoryExists envConflict cfgDemo (str "/bk") = false := by
  refine ⟨rfl, rfl, ?_⟩
  decide

/-- C7 (amended): `ensureDirectoryExists` first probes the full directory
path and succeeds immediately if the probe succeeds; otherwise it walks the
path's nonempty segments in order, probing each accumulated path and
attempting creation of absent ones, where a creation response is a success
exactly when it is `ok` or has status 405 (method not allowed) — a 409
conflict response counts as failure — and the call succeeds iff every
accumulated path is probed present or successfully created. -/
theorem C7_amended (env : DavEnv) (config : WebDAVConfig) (dirPath : Str) :
    ensureDirectoryExists env config dirPath = true ↔
      (checkDirectoryExists env config dirPath = true ∨
       ∀ q ∈ ancestorPaths []
           ((splitSlash dirPath).filter (fun part => 0 < part.length)),
         checkDirectoryExists env config q = true ∨
         createDirectory env config q = true) := by
  unfold ensureDirectoryExists
  by_cases h : checkDirectoryExists env config dirPath = true
  · rw [if_pos h]
    simp [h]
  · rw [if_neg h]
    rw [ensureDirLoop_iff]
    constructor
    · intro hq
      exact Or.inr hq
    · intro hq
      rcases hq with hc | hq
      · exact absurd hc h
      · exact hq

theorem C7_witness :
    ensureDirectoryExists envConflict cfgDemo (str "/bk") = true ↔
      (checkDirectoryExists envConflict cfgDemo (str "/bk") = true ∨
       ∀ q ∈ ancestorPaths []
           ((splitSlash (str "/bk")).filter (fun part => 0 < part.length)),
         checkDirectoryExists envConflict cfgDemo q = true ∨
         createDirectory envConflict cfgDemo q = true) :=
  C7_amended envConflict cfgDemo (str "/bk")

/-- C1 counterexample: an upload call on a disabled configuration returns a
failure but appends no audit-log entry at all, contradicting "exactly one
entry for every configuration state". -/
theorem C1_counterexample :
    (uploadBackup envUploadSuccess {cfgDemo with enabled := false}
      (str "手动备份")).1.success = false ∧
    logCount (uploadBackup envUploadSuccess {cfgDemo with enabled := false}
      (str "手动备份")).2 = 0 :=
  ⟨rfl, rfl⟩

/-- C1 (amended): one `uploadBackup` call appends exactly one audit-log
entry when the configuration is enabled and directory provisioning
succeeds — a success entry when the upload succeeds and a failure entry
carrying the classified diagnostic otherwise (including exceptions) — and
appends no entry when the configuration is disabled or directory
provisioning fails; every appended entry carries the call's trigger and
the returned result's success flag and message. -/
theorem C1_amended (w : UploadEnv) (config : WebDAVConfig) (trigger : Str) :
    logCount (uploadBackup w config trigger).2 =
      (if config.enabled = true ∧
          ensureDirectoryExists w.dav config config.backup_path = true
       then 1 else 0) ∧
    (∀ tr s m, UpEv.syncLog tr s m ∈ (uploadBackup w config trigger).2 →
      tr = trigger ∧ s = (uploadBackup w config trigger).1.success ∧
      m = (uploadBackup w config trigger).1.message) ∧
    (config.enabled = true →
      ensureDirectoryExists w.dav config config.backup_path = true →
      w.exportOutcome = .ok () →
      ∀ r, w.putOutcome = .ok r → r.ok = false →
        (uploadBackup w config trigger).1.message = classifyUploadError r) := by
  unfold uploadBackup
  cases hen : config.enabled with
  | false =>
    simp [logCount]
  | true =>
    cases hdir : ensureDirectoryExists w.dav config config.backup_path with
    | false =>
      simp [logCount]
    | true =>
      cases hex : w.exportOutcome with
      | error m =>
        refine ⟨by simp [logCount], ?_, ?_⟩
        · intro tr s m hm
          simp at hm
          simp [hm]
        · intro _ _ hok
          simp [hex] at hok
      | ok u =>
        cases hput : w.putOutcome with
        | error m =>
          refine ⟨by simp [logCount], ?_, ?_⟩
          · intro tr s m hm
            simp at hm
            simp [hm]
          · intro _ _ _ r hr
            simp [hput] at hr
        | ok r =>
          cases hok : r.ok with
          | true =>
            refine ⟨by simp [hok, logCount], ?_, ?_⟩
            · intro tr s m hm
              simp [hok] at hm
              simp [hok, hm]
            · intro _ _ _ r2 hr2 hr2ok
              simp [hput] at hr2
              subst hr2
              rw [hok] at hr2ok
              cases hr2ok
          | false =>
            refine ⟨by simp [hok, logCount], ?_, ?_⟩
            · intro tr s m hm
              simp [hok] at hm
              simp [hok, hm]
            · intro _ _ _ r2 hr2 _
              simp [hput] at hr2
              subst hr2
              simp [hok]

theorem C1_witness :
    logCount (uploadBackup envUpload423 cfgDemo (str "数据变动")).2 = 1 ∧
    (uploadBackup envUpload423 cfgDemo (str "数据变动")).1.message =
      classifyUploadError ⟨false, 423, str "Locked", []⟩ := by
  have h := C1_amended envUpload423 cfgDemo (str "数据变动")
  refine ⟨?_, ?_⟩
  · rw [h.1]
    rfl
  · exact h.2.2 rfl rfl rfl ⟨false, 423, str "Locked", []⟩ rfl rfl

/-- C3: within one successful upload call, the single second `Date.now()`
reading `backupTimestamp` is used both for the generated snapshot filename
and for the `last_backup_time` persisted via `saveConfig`, so the two
cannot disagree. -/
theorem C3_single_timestamp (w : UploadEnv) (config : WebDAVConfig)
    (trigger : Str) (h : (uploadBackup w config trigger).1.success = true) :
    UpEv.savedConfig {config with last_backup_time := w.backupTimestamp} ∈
      (uploadBackup w config trigger).2 ∧
    (uploadBackup w config trigger).1.message =
      str "备份上传成功: " ++ backupFilename (w.dateOf w.backupTimestamp) := by
  unfold uploadBackup at h ⊢
  cases hen : config.enabled with
  | false => simp [hen] at h
  | true =>
    cases hdir : ensureDirectoryExists w.dav config config.backup_path with
    | false => simp [hen, hdir] at h
    | true =>
      cases hex : w.exportOutcome with
      | error m => simp [hen, hdir, hex] at h
      | ok u =>
        cases hput : w.putOutcome with
        | error m => simp [hen, hdir, hex, hput] at h
        | ok r =>
          cases hok : r.ok with
          | false => simp [hen, hdir, hex, hput, hok] at h
          | true => exact ⟨by simp [hok], by simp [hok]⟩

theorem C3_witness :
    UpEv.savedConfig {cfgDemo with last_backup_time :=
        envUploadSuccess.backupTimestamp} ∈
      (uploadBackup envUploadSuccess cfgDemo (str "手动备份")).2 ∧
    (uploadBackup envUploadSuccess cfgDemo (str "手动备份")).1.message =
      str "备份上传成功: " ++
        backupFilename (envUploadSuccess.dateOf
          envUploadSuccess.backupTimestamp) :=
  C3_single_timestamp envUploadSuccess cfgDemo (str "手动备份") rfl

/-- C10: `saveConfig` is invoked by `uploadBackup` only after a successful
`PUT` — every recorded `saveConfig` invocation implies the `PUT` was
delivered with `ok`, carries exactly the old configuration with
`last_backup_time` set to the upload's timestamp, and coincides with a
successful result; when the upload fails at any step, no `saveConfig`
invocation is recorded, so the cached and durable configuration are left
unchanged. -/
theorem C10_saveConfig_gating (w : UploadEnv) (config : WebDAVConfig)
    (trigger : Str) :
    (∀ c, UpEv.savedConfig c ∈ (uploadBackup w config trigger).2 →
      (∃ r, w.putOutcome = .ok r ∧ r.ok = true) ∧
      c = {config with last_backup_time := w.backupTimestamp} ∧
      (uploadBackup w config trigger).1.success = true) ∧
    ((uploadBackup w config trigger).1.success = false →
      ∀ c, UpEv.savedConfig c ∉ (uploadBackup w config trigger).2) := by
  unfold uploadBackup
  cases hen : config.enabled with
  | false => simp
  | true =>
    cases hdir : ensureDirectoryExists w.dav config config.backup_path with
    | false => simp
    | true =>
      cases hex : w.exportOutcome with
      | error m => simp
      | ok u =>
        cases hput : w.putOutcome with
        | error m => simp
        | ok r =>
          cases hok : r.ok with
          | false => simp [hok]
          | true =>
            refine ⟨?_, ?_⟩
            · intro c hc
              simp [hok] at hc
              exact ⟨⟨r, rfl, hok⟩, hc, by simp [hok]⟩
            · intro hfail
              simp [hok] at hfail

theorem C10_witness :
    UpEv.savedConfig {cfgDemo with last_backup_time := 2222} ∉
      (uploadBackup envUpload423 cfgDemo (str "手动备份")).2 :=
  (C10_saveConfig_gating envUpload423 cfgDemo (str "手动备份")).2 rfl
    {cfgDemo with last_backup_time := 2222}

/-- C9: `syncOnDataChange` never lets an exception escape to its caller,
delegates to `uploadBackup` only when both `enabled` and
`auto_sync_on_change` are set, and swallows an upload exception into a
failure audit entry. -/
theorem C9_syncOnDataChange (w : SyncEnv) :
    (∃ evs, syncOnDataChange w = .ok evs) ∧
    (∀ evs, syncOnDataChange w = .ok evs →
      (SyncEv.uploadAttempt ∈ evs →
        ∃ cfg, w.getConfig = .ok cfg ∧ cfg.enabled = true ∧
          cfg.auto_sync_on_change = true) ∧
      (∀ e, w.uploadResult = .error e →
        ∀ cfg, w.getConfig = .ok cfg → cfg.enabled = true →
          cfg.auto_sync_on_change = true →
          SyncEv.logAdd false (str "同步异常: " ++ errMsg e) ∈ evs)) := by
  cases hg : w.getConfig with
  | error e =>
    have hval : syncOnDataChange w =
        .ok [.logAdd false (str "同步检查失败: " ++ errMsg e)] := by
      unfold syncOnDataChange
      rw [hg]
    rw [hval]
    refine ⟨⟨_, rfl⟩, ?_⟩
    intro evs hevs
    rw [Except.ok.injEq] at hevs
    subst hevs
    refine ⟨fun hmem => absurd hmem (by simp), ?_⟩
    intro e2 _ cfg hcfg
    cases hcfg
  | ok cfg =>
    cases hea : cfg.enabled && cfg.auto_sync_on_change with
    | false =>
      have hval : syncOnDataChange w = .ok [] := by
        unfold syncOnDataChange
        rw [hg]
        simp [hea]
      rw [hval]
      refine ⟨⟨_, rfl⟩, ?_⟩
      intro evs hevs
      rw [Except.ok.injEq] at hevs
      subst hevs
      refine ⟨fun hmem => absurd hmem (by simp), ?_⟩
      intro e2 _ cfg2 hcfg2 hen2 hauto2
      rw [Except.ok.injEq] at hcfg2
      subst hcfg2
      rw [hen2, hauto2] at hea
      cases hea
    | true =>
      have hea2 : cfg.enabled = true ∧ cfg.auto_sync_on_change = true := by
        simpa using hea
      cases hup : w.uploadResult with
      | ok r =>
        have hval : syncOnDataChange w = .ok [.uploadAttempt] := by
          unfold syncOnDataChange
          rw [hg, hup]
          simp [hea]
        rw [hval]
        refine ⟨⟨_, rfl⟩, ?_⟩
        intro evs hevs
        rw [Except.ok.injEq] at hevs
        subst hevs
        refine ⟨fun _ => ⟨cfg, rfl, hea2.1, hea2.2⟩, ?_⟩
        intro e2 he2
        cases he2
      | error e =>
        have hval : syncOnDataChange w =
            .ok [.uploadAttempt,
              .logAdd false (str "同步异常: " ++ errMsg e)] := by
          unfold syncOnDataChange
          rw [hg, hup]
          simp [hea]
        rw [hval]
        refine ⟨⟨_, rfl⟩, ?_⟩
        intro evs hevs
        rw [Except.ok.injEq] at hevs
        subst hevs
        refine ⟨fun _ => ⟨cfg, rfl, hea2.1, hea2.2⟩, ?_⟩
        intro e2 he2 cfg2 hcfg2 _ _
        rw [Except.error.injEq] at he2
        subst he2
        simp

theorem C9_witness :
    (∃ evs, syncOnDataChange ⟨.ok cfgDemo, .error (str "boom")⟩ = .ok evs) ∧
    (∃ evs, syncOnDataChange ⟨.ok cfgDemo, .error (str "boom")⟩ = .ok evs ∧
      SyncEv.logAdd false (str "同步异常: " ++ errMsg (str "boom")) ∈ evs) := by
  have h := C9_syncOnDataChange ⟨.ok cfgDemo, .error (str "boom")⟩
  obtain ⟨evs, hevs⟩ := h.1
  exact ⟨⟨evs, hevs⟩, ⟨evs, hevs,
    (h.2 evs hevs).2 (str "boom") rfl cfgDemo rfl rfl rfl⟩⟩

theorem natToCharsAux_stable (f1 : Nat) : ∀ n, n < f1 →
    natToCharsAux f1 n = natToChars n := by
  induction f1 using Nat.strong_induction_on with
  | _ f1 ih =>
    intro n h
    match f1, h with
    | f + 1, h =>
      unfold natToChars
      by_cases h10 : n < 10
      · simp [natToCharsAux, h10]
      · have hdiv : n / 10 < n := Nat.div_lt_self (by omega) (by omega)
        show (if n < 10 then [digitChar n]
          else natToCharsAux f (n / 10) ++ [digitChar (n % 10)]) =
          (if n < 10 then [digitChar n]
          else natToCharsAux n (n / 10) ++ [digitChar (n % 10)])
        rw [if_neg h10, if_neg h10]
        by_cases hf : f = 0
        · omega
        · rw [ih f (by omega) (n / 10) (by omega),
            ih n (by omega) (n / 10) (by omega)]

theorem natToChars_lt10 (n : Nat) (h : n < 10) : natToChars n = [digitChar n] := by
  unfold natToChars
  simp [natToCharsAux, h]

theorem natToChars_ge10 (n : Nat) (h : 10 ≤ n) :
    natToChars n = natToChars (n / 10) ++ [digitChar (n % 10)] := by
  show natToCharsAux (n + 1) n = _
  show (if n < 10 then [digitChar n]
    else natToCharsAux n (n / 10) ++ [digitChar (n % 10)]) = _
  rw [if_neg (by omega)]
  rw [natToCharsAux_stable n (n / 10) (Nat.div_lt_self (by omega) (by omega))]

theorem pad2_eq (n : Nat) (h : n < 100) :
    pad2 n = [digitChar (n / 10), digitChar (n % 10)] := by
  by_cases h10 : n < 10
  · rw [pad2, natToChars_lt10 n h10]
    unfold padTwo
    rw [if_pos (by simp)]
    have h1 : n / 10 = 0 := by omega
    have h2 : n % 10 = n := by omega
    rw [h1, h2]
    rfl
  · rw [pad2, natToChars_ge10 n (by omega), natToChars_lt10 (n / 10) (by omega)]
    unfold padTwo
    rw [if_neg (by simp)]
    have h1 : n / 10 % 10 = n / 10 := by omega
    simp

theorem natToChars_four (n : Nat) (h1 : 1000 ≤ n) (h2 : n < 10000) :
    natToChars n = [digitChar (n / 1000), digitChar (n / 100 % 10),
      digitChar (n / 10 % 10), digitChar (n % 10)] := by
  rw [natToChars_ge10 n (by omega), natToChars_ge10 (n / 10) (by omega),
    natToChars_ge10 (n / 10 / 10) (by omega),
    natToChars_lt10 (n / 10 / 10 / 10) (by omega)]
  rw [show n / 10 / 10 / 10 = n / 1000 by omega,
    show n / 10 / 10 % 10 = n / 100 % 10 by omega]
  simp

theorem digitChar_lt (x y : Nat) (hx : x < 10) (hy : y < 10) (h : x < y) :
    digitChar x < digitChar y := by
  have H : ∀ a < 10, ∀ b < 10, a < b → digitChar a < digitChar b := by decide
  exact H x hx y hy h

theorem strLtB_append_left (w u v : Str) (h : strLtB u v = true) :
    strLtB (w ++ u) (w ++ v) = true := by
  induction w with
  | nil => simpa
  | cons c cs ih =>
    show strLtB (c :: (cs ++ u)) (c :: (cs ++ v)) = true
    unfold strLtB
    rw [if_neg (lt_irrefl c), if_neg (lt_irrefl c)]
    exact ih

theorem strLtB_append_right (a : Str) : ∀ (b u v : Str),
    a.length = b.length → strLtB a b = true →
    strLtB (a ++ u) (b ++ v) = true := by
  induction a with
  | nil =>
    intro b u v hl h
    cases b with
    | nil => simp [strLtB] at h
    | cons y ys => simp at hl
  | cons x xs ih =>
    intro b u v hl h
    cases b with
    | nil => simp at hl
    | cons y ys =>
      show strLtB (x :: (xs ++ u)) (y :: (ys ++ v)) = true
      unfold strLtB at h ⊢
      by_cases hxy : x < y
      · rw [if_pos hxy]
      · rw [if_neg hxy] at h ⊢
        by_cases hyx : y < x
        · rw [if_pos hyx] at h
          cases h
        · rw [if_neg hyx] at h ⊢
          exact ih ys u v (by simpa using hl) h

theorem strLtB_irrefl (a : Str) : strLtB a a = false := by
  induction a with
  | nil => rfl
  | cons x xs ih =>
    unfold strLtB
    rw [if_neg (lt_irrefl x), if_neg (lt_irrefl x)]
    exact ih

theorem strLtB_trans (a : Str) : ∀ b c, strLtB a b = true →
    strLtB b c = true → strLtB a c = true := by
  induction a with
  | nil =>
    intro b c h1 h2
    cases c with
    | nil =>
      cases b with
      | nil => simp [strLtB] at h1
      | cons y ys => simp [strLtB] at h2
    | cons z zs => rfl
  | cons x xs ih =>
    intro b c h1 h2
    cases b with
    | nil => simp [strLtB] at h1
    | cons y ys =>
      cases c with
      | nil => simp [strLtB] at h2
      | cons z zs =>
        unfold strLtB at h1 h2 ⊢
        by_cases hxy : x < y
        · by_cases hyz : y < z
          · rw [if_pos (lt_trans hxy hyz)]
          · rw [if_neg hyz] at h2
            by_cases hzy : z < y
            · rw [if_pos hzy] at h2
              cases h2
            · have hyz2 : y = z := le_antisymm (not_lt.mp hzy) (not_lt.mp hyz)
              subst hyz2
              rw [if_pos hxy]
        · rw [if_neg hxy] at h1
          by_cases hyx : y < x
          · rw [if_pos hyx] at h1
            cases h1
          · rw [if_neg hyx] at h1
            have hxy2 : x = y := le_antisymm (not_lt.mp hyx) (not_lt.mp hxy)
            subst hxy2
            by_cases hxz : x < z
            · rw [if_pos hxz]
            · rw [if_neg hxz] at h2 ⊢
              by_cases hzx : z < x
              · rw [if_pos hzx] at h2
                cases h2
              · rw [if_neg hzx] at h2 ⊢
                exact ih ys zs h1 h2

theorem strLtB_connex (a : Str) : ∀ b, strLtB a b = false →
    strLtB b a = false → a = b := by
  induction a with
  | nil =>
    intro b h1 h2
    cases b with
    | nil => rfl
    | cons y ys => simp [strLtB] at h1
  | cons x xs ih =>
    intro b h1 h2
    cases b with
    | nil => simp [strLtB] at h2
    | cons y ys =>
      unfold strLtB at h1 h2
      by_cases hxy : x < y
      · rw [if_pos hxy] at h1
        cases h1
      · rw [if_neg hxy] at h1
        by_cases hyx : y < x
        · rw [if_pos hyx] at h2
          cases h2
        · rw [if_neg hyx] at h1
          rw [if_neg hyx, if_neg hxy] at h2
          have hxy2 : x = y := le_antisymm (not_lt.mp hyx) (not_lt.mp hxy)
          subst hxy2
          rw [ih ys h1 h2]

theorem strLtB_asymm (a b : Str) (h : strLtB a b = true) :
    strLtB b a = false := by
  cases hc : strLtB b a with
  | false => rfl
  | true =>
    have := strLtB_trans a b a h hc
    rw [strLtB_irrefl] at this
    cases this

theorem strLeB_total (a b : Str) : strLeB a b = true ∨ strLeB b a = true := by
  unfold strLeB
  cases hc : strLtB b a with
  | false => left; rfl
  | true =>
    right
    rw [strLtB_asymm b a hc]
    rfl

theorem strLeB_trans (a b c : Str) (h1 : strLeB a b = true)
    (h2 : strLeB b c = true) : strLeB a c = true := by
  simp only [strLeB, Bool.not_eq_true'] at h1 h2 ⊢
  cases hca : strLtB c a with
  | false => rfl
  | true =>
    exfalso
    cases hbc : strLtB b c with
    | true =>
      have : strLtB b a = true := strLtB_trans b c a hbc hca
      rw [h1] at this
      cases this
    | false =>
      have hbceq : b = c := strLtB_connex b c hbc h2
      subst hbceq
      rw [hca] at h1
      cases h1

theorem pad2_ltB (a b : Nat) (hb : b < 100) (h : a < b) :
    strLtB (pad2 a) (pad2 b) = true := by
  have ha : a < 100 := by omega
  rw [pad2_eq a ha, pad2_eq b hb]
  show strLtB [digitChar (a / 10), digitChar (a % 10)]
    [digitChar (b / 10), digitChar (b % 10)] = true
  unfold strLtB
  rcases Nat.lt_trichotomy (a / 10) (b / 10) with hlt | heq | hgt
  · rw [if_pos (digitChar_lt _ _ (by omega) (by omega) hlt)]
  · rw [heq, if_neg (lt_irrefl _), if_neg (lt_irrefl _)]
    unfold strLtB
    rw [if_pos (digitChar_lt _ _ (by omega) (by omega) (by omega))]
  · omega

theorem natToChars_ltB_four (a b : Nat) (ha : 1000 ≤ a) (hb : b < 10000)
    (h : a < b) : strLtB (natToChars a) (natToChars b) = true := by
  rw [natToChars_four a ha (by omega), natToChars_four b (by omega) hb]
  unfold strLtB
  rcases Nat.lt_trichotomy (a / 1000) (b / 1000) with l1 | e1 | g1
  · rw [if_pos (digitChar_lt _ _ (by omega) (by omega) l1)]
  · rw [e1, if_neg (lt_irrefl _), if_neg (lt_irrefl _)]
    unfold strLtB
    rcases Nat.lt_trichotomy (a / 100 % 10) (b / 100 % 10) with l2 | e2 | g2
    · rw [if_pos (digitChar_lt _ _ (by omega) (by omega) l2)]
    · rw [e2, if_neg (lt_irrefl _), if_neg (lt_irrefl _)]
      unfold strLtB
      rcases Nat.lt_trichotomy (a / 10 % 10) (b / 10 % 10) with l3 | e3 | g3
      · rw [if_pos (digitChar_lt _ _ (by omega) (by omega) l3)]
      · rw [e3, if_neg (lt_irrefl _), if_neg (lt_irrefl _)]
        unfold strLtB
        rw [if_pos (digitChar_lt _ _ (by omega) (by omega) (by omega))]
      · omega
    · omega
  · omega

theorem daysInMonth_le31 (y m : Nat) : daysInMonth y m ≤ 31 := by
  unfold daysInMonth
  split_ifs <;> omega

theorem daysInMonth_ge28 (y m : Nat) : 28 ≤ daysInMonth y m := by
  unfold daysInMonth
  split_ifs <;> omega

theorem backupFilename_ltB (x y : DateTime) (hx : ValidDT x) (hy : ValidDT y)
    (h : dtLt x y) : strLtB (backupFilename x) (backupFilename y) = true := by
  obtain ⟨hx1, hx2, hx3, hx4, hx5, hx6, hx7, hx8, hx9⟩ := hx
  obtain ⟨hy1, hy2, hy3, hy4, hy5, hy6, hy7, hy8, hy9⟩ := hy
  have hxd : x.day < 100 := by have := daysInMonth_le31 x.year x.month; omega
  have hyd : y.day < 100 := by have := daysInMonth_le31 y.year y.month; omega
  have hlen2 : ∀ a b : Nat, a < 100 → b < 100 →
      (pad2 a).length = (pad2 b).length := by
    intro a b ha hb
    rw [pad2_eq a ha, pad2_eq b hb]
    rfl
  have hlen4 : (natToChars x.year).length = (natToChars y.year).length := by
    rw [natToChars_four x.year hx1 (by omega),
      natToChars_four y.year hy1 (by omega)]
    rfl
  simp only [backupFilename, List.append_assoc]
  rcases h with h1 | ⟨e1, h2⟩
  · exact strLtB_append_left _ _ _
      (strLtB_append_right _ _ _ _ hlen4
        (natToChars_ltB_four x.year y.year hx1 (by omega) h1))
  · rw [e1]
    rcases h2 with h2 | ⟨e2, h3⟩
    · refine strLtB_append_left _ _ _ (strLtB_append_left _ _ _
        (strLtB_append_left _ _ _ ?_))
      exact strLtB_append_right _ _ _ _ (hlen2 x.month y.month (by omega) (by omega))
        (pad2_ltB x.month y.month (by omega) h2)
    · rw [e2]
      rcases h3 with h3 | ⟨e3, h4⟩
      · refine strLtB_append_left _ _ _ (strLtB_append_left _ _ _
          (strLtB_append_left _ _ _ (strLtB_append_left _ _ _
            (strLtB_append_left _ _ _ ?_))))
        exact strLtB_append_right _ _ _ _ (hlen2 _ _ hxd hyd)
          (pad2_ltB x.day y.day hyd h3)
      · rw [e3]
        rcases h4 with h4 | ⟨e4, h5⟩
        · refine strLtB_append_left _ _ _ (strLtB_append_left _ _ _
            (strLtB_append_left _ _ _ (strLtB_append_left _ _ _
              (strLtB_append_left _ _ _ (strLtB_append_left _ _ _
                (strLtB_append_left _ _ _ ?_))))))
          exact strLtB_append_right _ _ _ _ (hlen2 x.hour y.hour (by omega) (by omega))
            (pad2_ltB x.hour y.hour (by omega) h4)
        · rw [e4]
          rcases h5 with h5 | ⟨e5, h6⟩
          · refine strLtB_append_left _ _ _ (strLtB_append_left _ _ _
              (strLtB_append_left _ _ _ (strLtB_append_left _ _ _
                (strLtB_append_left _ _ _ (strLtB_append_left _ _ _
                  (strLtB_append_left _ _ _ (strLtB_append_left _ _ _
                    (strLtB_append_left _ _ _ ?_))))))))
            exact strLtB_append_right _ _ _ _ (hlen2 x.minute y.minute (by omega) (by omega))
              (pad2_ltB x.minute y.minute (by omega) h5)
          · rw [e5]
            refine strLtB_append_left _ _ _ (strLtB_append_left _ _ _
              (strLtB_append_left _ _ _ (strLtB_append_left _ _ _
                (strLtB_append_left _ _ _ (strLtB_append_left _ _ _
                  (strLtB_append_left _ _ _ (strLtB_append_left _ _ _
                    (strLtB_append_left _ _ _ (strLtB_append_left _ _ _
                      (strLtB_append_left _ _ _ ?_))))))))))
            exact strLtB_append_right _ _ _ _ (hlen2 x.second y.second (by omega) (by omega))
              (pad2_ltB x.second y.second (by omega) h6)

theorem nextSecond_dtLt (d : DateTime) : dtLt d (nextSecond d) := by
  unfold nextSecond
  split_ifs with h1 h2 h3 h4 h5 <;> simp [dtLt]

theorem ValidDT_nextSecond (d : DateTime) (h : ValidDT d)
    (hy : d.year ≤ 9998) : ValidDT (nextSecond d) := by
  obtain ⟨h1, h2, h3, h4, h5, h6, h7, h8, h9⟩ := h
  have h28a := daysInMonth_ge28 d.year (d.month + 1)
  have h28b := daysInMonth_ge28 (d.year + 1) 1
  unfold nextSecond
  split_ifs with c1 c2 c3 c4 c5 <;> simp [ValidDT] <;> omega

/-- C8: snapshot filenames generated at consecutive seconds strictly
increase in the string order JS sorts by (so filenames are lexically
monotone in creation time), and `getBackupList`'s post-processing returns
exactly the `.json`-suffixed filenames, sorted descending in that order
(most recent first). -/
theorem C8_filename_order_and_listing :
    (∀ d : DateTime, ValidDT d → d.year ≤ 9998 →
      strLtB (backupFilename d) (backupFilename (nextSecond d)) = true) ∧
    (∀ files : List Str,
      (getBackupListFiles files).Perm
        (files.filter (fun f => endsWithStr (str ".json") f)) ∧
      (getBackupListFiles files).Sorted (fun a b => strLeB b a = true)) := by
  constructor
  · intro d hv hyr
    exact backupFilename_ltB d (nextSecond d) hv
      (ValidDT_nextSecond d hv hyr) (nextSecond_dtLt d)
  · intro files
    haveI htot : IsTotal Str (fun a b => strLeB a b = true) := ⟨strLeB_total⟩
    haveI htr : IsTrans Str (fun a b => strLeB a b = true) :=
      ⟨fun a b c => strLeB_trans a b c⟩
    constructor
    · exact (List.reverse_perm _).trans (List.perm_insertionSort _ _)
    · show List.Pairwise _ (List.reverse _)
      rw [List.pairwise_reverse]
      exact List.sorted_insertionSort _ _

theorem C8_witness :
    strLtB (backupFilename dtDemo) (backupFilename (nextSecond dtDemo))
      = true ∧
    (getBackupListFiles [str "a.json", str "readme.txt", str "b.json"]).Perm
      ([str "a.json", str "readme.txt", str "b.json"].filter
        (fun f => endsWithStr (str ".json") f)) ∧
    (getBackupListFiles [str "a.json", str "readme.txt", str "b.json"]).Sorted
      (fun a b => strLeB b a = true) :=
  ⟨C8_filename_order_and_listing.1 dtDemo (by decide) (by decide),
   C8_filename_order_and_listing.2 [str "a.json", str "readme.txt", str "b.json"]⟩

/-- C4 counterexample: in a lowercase-prefixed listing whose collection
entry carries a display name, the collection's resource type
(`d:resourcetype` containing `d:collection`) is not recognized — only the
unprefixed tag names are consulted — so the collection's name appears in
the output alongside the object's, refuting "excludes every entry whose
resource-type marks it as a collection" and "returns exactly the one
object filename" for the prefixed conventions. -/
theorem C4_counterexample :
    parseWebDAVResponse docPrefixedColl = [str "folder", str "a.json"] := by
  decide

/-- C4 (amended): every name `parseWebDAVResponse` returns is non-empty,
does not end in `/`, and stems from an entry that is not marked as a
directory by an *unprefixed* `resourcetype`/`collection` element (prefixed
resource types are not consulted); the one-collection-one-object scenario
returns exactly the object filename under the unprefixed convention, and
under the lowercase/uppercase-prefixed conventions when the collection
entry has no display name and its href ends in `/` (so its derived name is
empty). -/
theorem C4_amended :
    (∀ doc, ∀ n ∈ parseWebDAVResponse doc,
      n ≠ [] ∧ endsWithSl n = false ∧
      ∃ resp ∈ findResponses doc, n = entryName resp ∧
        isDirEntry resp = false) ∧
    parseWebDAVResponse docUnprefixed = [str "backup-1.json"] ∧
    parseWebDAVResponse docLowerPrefixed = [str "backup-1.json"] ∧
    parseWebDAVResponse docUpperPrefixed = [str "backup-1.json"] := by
  refine ⟨?_, by decide, by decide, by decide⟩
  intro doc n hn
  unfold parseWebDAVResponse at hn
  rw [List.mem_filterMap] at hn
  obtain ⟨resp, hresp, hf⟩ := hn
  by_cases hc : entryName resp ≠ [] ∧ endsWithSl (entryName resp) ≠ true ∧
      isDirEntry resp ≠ true
  · rw [if_pos hc, Option.some.injEq] at hf
    subst hf
    exact ⟨hc.1, by simpa using hc.2.1, resp, hresp, rfl,
      by simpa using hc.2.2⟩
  · rw [if_neg hc] at hf
    cases hf

theorem C4_witness :
    str "backup-1.json" ≠ [] ∧
    endsWithSl (str "backup-1.json") = false ∧
    ∃ resp ∈ findResponses docUnprefixed,
      str "backup-1.json" = entryName resp ∧ isDirEntry resp = false := by
  have h := C4_amended
  exact h.1 docUnprefixed (str "backup-1.json") (by rw [h.2.1]; simp)

end WebDAV
